import Mathlib

/-!
A shallow embedding of the rule-execution engine of
`@helptheweb/accessibility-engine` (src/core/engine.js, class
`AccessibilityEngine`), together with theorems settling the frozen claims
about its specification.

Modelling conventions:
* JS option slots that distinguish "key absent" from "key present but
  null/undefined/false" are modelled by `JsVal`.
* The DOM is abstracted by a `Dom` record of query primitives (the engine
  treats the document as an external collaborator); a selector query either
  returns an element list or throws, which `SelectorResult` captures.
* Mutation of `this.results` / `this.errors` is modelled by explicit state
  passing of `EngineState`.
* Wall-clock racing cannot be embedded; whether a rule's evaluation exceeded
  its per-rule deadline, or was still in flight when the global deadline
  fired, is an input (`timedOut : Bool`, `RuleFate`).  The per-rule deadline
  itself is the hardcoded constant 5000 ms of `_runRule`.
-/

namespace AccEngine

/-- A JS option slot: the key may be absent, explicitly falsy
(null / undefined / false), or carry a value. -/
inductive JsVal (α : Type) where
  | absent
  | nullish
  | val (a : α)
deriving DecidableEq, Repr

/-- The `runOnly` option accepts either an array of ruleset names or a single
name (`_getRulesToRun` wraps a non-array in a one-element array). -/
inductive RunOnlyVal where
  | names (l : List String)
  | single (s : String)
deriving DecidableEq, Repr

/-- JS truthiness of the engine's `options.runOnly` slot: arrays are always
truthy (even empty), a string is truthy iff non-empty, null/undefined/false
and an absent key are falsy. -/
def runOnlyTruthy : JsVal RunOnlyVal → Bool
  | .val (.names _) => true
  | .val (.single s) => !(s == "")
  | _ => false

/-- The caller-supplied options object (only the slots the claims need).
`maxElements` and `silent` are modelled as absent-or-value; passing an
explicit null for those numeric/boolean slots is outside the claims. -/
structure OptionsInput where
  runOnly : JsVal RunOnlyVal := .absent
  resultTypes : JsVal (List String) := .absent
  maxElements : Option Nat := none
  silent : Option Bool := none

/-- The engine's resolved `this.options`. -/
structure EngineOptions where
  runOnly : JsVal RunOnlyVal
  resultTypes : JsVal (List String)
  maxElements : Nat
  silent : Bool

/-- The constructor's defaulting, `{ runOnly: options.runOnly || [...],
..., ...options }`: the spread re-applies the caller's own slot afterwards,
so an absent key gets the default while an explicitly falsy value survives
and overwrites it. -/
def mkOptions (i : OptionsInput) : EngineOptions :=
  { runOnly :=
      match i.runOnly with
      | .absent => .val (.names ["wcag22a", "wcag22aa"])
      | o => o
    resultTypes :=
      match i.resultTypes with
      | .absent => .val ["violations"]
      | o => o
    maxElements := i.maxElements.getD 5000
    silent := i.silent.getD false }

/-- A non-null value returned by a rule predicate (`passed` / `incomplete`
stand for the JS truthiness of those optional fields). -/
structure Outcome where
  passed : Bool := false
  incomplete : Bool := false
  message : Option String := none
deriving DecidableEq, Repr

/-- What one call of `rule.evaluate(element, options)` does: return null,
return an outcome, or throw. -/
inductive EvalResult where
  | ok (o : Option Outcome)
  | throws (msg : String)
deriving DecidableEq, Repr

/-- A registered rule (metadata plus predicate), over an abstract element
type `E`. -/
structure Rule (E : Type) where
  id : String
  selector : Option String := none
  description : String := ""
  help : String := ""
  helpUrl : String := ""
  impact : String := ""
  tags : List String := []
  explanation : String := ""
  evaluate : E → EngineOptions → EvalResult

/-- One per-element result record (`html`/`target` from `_getOuterHTML` /
`_getSelector`, the rest spread from the predicate's outcome). -/
structure NodeResult where
  html : String
  target : String
  passed : Bool := false
  incomplete : Bool := false
  message : Option String := none
deriving DecidableEq, Repr

/-- A rule's entry in one of the four buckets. -/
structure RuleReport where
  id : String
  description : String
  help : String
  helpUrl : String
  impact : String
  tags : List String
  explanation : String
  nodes : List NodeResult
deriving DecidableEq, Repr

/-- The metadata object `_runRule` / `_executeRule` push into a bucket. -/
def mkRuleReport (r : Rule E) (nodes : List NodeResult) : RuleReport :=
  { id := r.id, description := r.description, help := r.help,
    helpUrl := r.helpUrl, impact := r.impact, tags := r.tags,
    explanation := r.explanation, nodes := nodes }

/-- An entry of `this.errors`; the code's records carry a `rule` key or a
`selector` key depending on the site, modelled as options. -/
structure ErrorRecord where
  type : String
  rule : Option String := none
  selector : Option String := none
  message : String
deriving DecidableEq, Repr

/-- `this.results`. -/
structure Results where
  violations : List RuleReport := []
  passes : List RuleReport := []
  incomplete : List RuleReport := []
  inapplicable : List RuleReport := []
deriving DecidableEq, Repr

/-- The engine's per-run mutable state: result buckets plus error log. -/
structure EngineState where
  results : Results := {}
  errors : List ErrorRecord := []
deriving DecidableEq, Repr

/-- Result of a `querySelectorAll` call: an element list, or a thrown
selector-syntax error. -/
inductive SelectorResult (E : Type) where
  | ok (els : List E)
  | throws (msg : String)

/-- The document abstraction the engine runs against: `doc.querySelector`
(used for the `html`/`body` special case), `context.querySelectorAll`,
`_getOuterHTML` and `_getSelector` (the latter two are pure element
renderers whose output the claims never inspect). -/
structure Dom (E : Type) where
  docQuerySelector : String → Option E
  ctxQuerySelectorAll : E → String → SelectorResult E
  outerHTML : E → String
  selectorPath : E → String

/-- The narrowed selector list `_getElements` substitutes for `*`. -/
def textSelectors : String :=
  "p, span, div, h1, h2, h3, h4, h5, h6, li, td, th, a, button"

/-- `_getElements(selector, context, doc)`: returns the errors it pushes and
the element list.  A falsy selector yields the context itself; `html`/`body`
resolve against the document; `*` is narrowed to `textSelectors`; a throwing
query is caught, logged as `selector_error` (carrying the original selector
string, not the rule id) and turned into an empty list. -/
def getElements (dom : Dom E) (selector : Option String) (context : E) :
    List ErrorRecord × List E :=
  match selector with
  | none => ([], [context])
  | some s =>
    if s = "" then ([], [context])
    else if s = "html" ∨ s = "body" then
      match dom.docQuerySelector s with
      | some e => ([], [e])
      | none => ([], [])
    else
      match dom.ctxQuerySelectorAll context
          (if s = "*" then textSelectors else s) with
      | .ok els => ([], els)
      | .throws msg => ([⟨"selector_error", none, some s, msg⟩], [])

/-- One iteration of `_executeRule`'s element loop: a thrown predicate is
caught and logged as `element_error`, a null outcome contributes nothing,
and a non-null outcome becomes a `NodeResult`. -/
def evalElement (dom : Dom E) (opts : EngineOptions) (rule : Rule E)
    (acc : List ErrorRecord × List NodeResult) (e : E) :
    List ErrorRecord × List NodeResult :=
  match rule.evaluate e opts with
  | .ok none => acc
  | .ok (some o) =>
      (acc.1,
       acc.2 ++ [{ html := dom.outerHTML e, target := dom.selectorPath e,
                   passed := o.passed, incomplete := o.incomplete,
                   message := o.message }])
  | .throws msg =>
      (acc.1 ++ [⟨"element_error", some rule.id, none, msg⟩], acc.2)

/-- The element loop of `_executeRule` over the (already truncated) element
list: accumulated `element_error` records and `NodeResult`s, both in
element order. -/
def evalElements (dom : Dom E) (opts : EngineOptions) (rule : Rule E)
    (els : List E) : List ErrorRecord × List NodeResult :=
  els.foldl (evalElement dom opts rule) ([], [])

/-- The single `element_limit` record `_executeRule` pushes when the match
list was truncated to `options.maxElements`. -/
def limitErrors (ruleId : String) (total limit : Nat) : List ErrorRecord :=
  if total > limit then
    [⟨"element_limit", some ruleId, none,
      "Checking only first " ++ toString limit ++ " of " ++
        toString total ++ " elements"⟩]
  else []

/-- The classification tail of `_executeRule`: with at least one
`NodeResult`, any incomplete node files the rule under `incomplete`, else
all-passed files it under `passes`, else under `violations`; with zero
`NodeResult`s nothing is pushed at all. -/
def classifyInto (rule : Rule E) (nodes : List NodeResult) (res : Results) :
    Results :=
  if nodes.length > 0 then
    if nodes.any (·.incomplete) then
      { res with incomplete := res.incomplete ++ [mkRuleReport rule nodes] }
    else if nodes.all (·.passed) then
      { res with passes := res.passes ++ [mkRuleReport rule nodes] }
    else
      { res with violations := res.violations ++ [mkRuleReport rule nodes] }
  else res

/-- The `NodeResult` list a rule produces: the element loop applied to the
truncated match list (the `ruleResult.nodes` of `_executeRule`). -/
def ruleNodes (dom : Dom E) (opts : EngineOptions) (rule : Rule E)
    (context : E) : List NodeResult :=
  (evalElements dom opts rule
    ((getElements dom rule.selector context).2.take opts.maxElements)).2

/-- `_executeRule(rule, context, doc)` as a state transformer: locate
elements (logging selector errors), file an empty-match rule under
`inapplicable`, otherwise truncate to `options.maxElements` (logging
`element_limit` when truncating), run the element loop and classify.
Error-log order matches the code: selector errors, then the limit record,
then element errors. -/
def executeRule (dom : Dom E) (opts : EngineOptions) (rule : Rule E)
    (context : E) (st : EngineState) : EngineState :=
  if (getElements dom rule.selector context).2.length = 0 then
    { st with
      errors := st.errors ++ (getElements dom rule.selector context).1,
      results :=
        { st.results with
          inapplicable := st.results.inapplicable ++ [mkRuleReport rule []] } }
  else
    { st with
      errors := st.errors ++ (getElements dom rule.selector context).1 ++
        limitErrors rule.id (getElements dom rule.selector context).2.length
          opts.maxElements ++
        (evalElements dom opts rule
          ((getElements dom rule.selector context).2.take opts.maxElements)).1,
      results := classifyInto rule (ruleNodes dom opts rule context) st.results }

/-- The fixed per-rule deadline of `_runRule` (not an engine option). -/
def ruleTimeoutMs : Nat := 5000

/-- The record `_runRule`'s catch block pushes when the per-rule race
rejects: its `type` is `rule_error`, and the timeout shows only in the
message text. -/
def ruleTimeoutRecord (id : String) : ErrorRecord :=
  ⟨"rule_error", some id, none, "Rule " ++ id ++ " timed out"⟩

/-- `_runRule(rule, context, doc)`: races `_executeRule` against the fixed
5000 ms deadline; on expiry (the only rejection `_executeRule` can produce,
since it catches selector and element errors itself) the catch block logs
`ruleTimeoutRecord` and files the rule under `incomplete` with zero
nodes. -/
def runRule (dom : Dom E) (opts : EngineOptions) (rule : Rule E)
    (context : E) (timedOut : Bool) (st : EngineState) : EngineState :=
  if timedOut then
    { st with
      errors := st.errors ++ [ruleTimeoutRecord rule.id],
      results :=
        { st.results with
          incomplete := st.results.incomplete ++ [mkRuleReport rule []] } }
  else executeRule dom opts rule context st

/-- The engine's rule and ruleset stores (`this.rules`, `this.rulesets`),
as association lists with unique keys (JS `Map` semantics). -/
structure Registry (E : Type) where
  rules : List (Rule E) := []
  rulesets : List (String × List String) := []

/-- `this.rules.get(id)`. -/
def lookupRule (reg : Registry E) (id : String) : Option (Rule E) :=
  reg.rules.find? (fun r => r.id == id)

/-- `this.rulesets.get(name)`. -/
def lookupRuleset (reg : Registry E) (name : String) : Option (List String) :=
  (reg.rulesets.find? (fun p => p.1 == name)).map (·.2)

/-- `Set.add` on an insertion-ordered set modelled as a duplicate-free
list. -/
def setAdd (s : List String) (x : String) : List String :=
  if x ∈ s then s else s ++ [x]

/-- The array `_getRulesToRun` folds over: `runOnly` itself when it is an
array, else the singleton wrapping. -/
def runOnlyArr : JsVal RunOnlyVal → List String
  | .val (.names l) => l
  | .val (.single s) => [s]
  | _ => []

/-- `this.rules.forEach((rule, id) => rulesToRun.add(id))`: every registered
rule id, in registration order. -/
def allRuleIds (reg : Registry E) : List String :=
  reg.rules.foldl (fun acc r => setAdd acc r.id) []

/-- `_getRulesToRun()`: a truthy `runOnly` unions the id lists of the named
rulesets (silently skipping unregistered names); a falsy `runOnly` returns
every registered rule id. -/
def getRulesToRun (reg : Registry E) (runOnly : JsVal RunOnlyVal) :
    List String :=
  if runOnlyTruthy runOnly then
    (runOnlyArr runOnly).foldl
      (fun acc name =>
        match lookupRuleset reg name with
        | some ids => ids.foldl setAdd acc
        | none => acc) []
  else
    allRuleIds reg

/-- The bucket projection of the report: a bucket key is present only when
selected (or when `resultTypes` is falsy, in which case all four are). -/
structure FilteredResults where
  violations : Option (List RuleReport) := none
  passes : Option (List RuleReport) := none
  incomplete : Option (List RuleReport) := none
  inapplicable : Option (List RuleReport) := none
deriving DecidableEq, Repr

/-- The identity projection (`_filterResults`' falsy branch returns
`this.results`, i.e. all four buckets). -/
def allResults (res : Results) : FilteredResults :=
  { violations := some res.violations, passes := some res.passes,
    incomplete := some res.incomplete, inapplicable := some res.inapplicable }

/-- `_filterResults()`: a truthy `resultTypes` copies exactly the named
buckets (unknown names are skipped; `this.results[type]` is an array and
hence truthy even when empty); a falsy one returns all four. -/
def filterResults (resultTypes : JsVal (List String)) (res : Results) :
    FilteredResults :=
  match resultTypes with
  | .val types =>
      types.foldl
        (fun acc t =>
          if t = "violations" then { acc with violations := some res.violations }
          else if t = "passes" then { acc with passes := some res.passes }
          else if t = "incomplete" then { acc with incomplete := some res.incomplete }
          else if t = "inapplicable" then { acc with inapplicable := some res.inapplicable }
          else acc) {}
  | _ => allResults res

/-- The assembled report (the environment-derived metadata fields —
timestamp, url, engine version, timing — are omitted; no claim mentions
them). `errors` is attached only when the log is non-empty and `silent` is
off. -/
structure Report where
  results : FilteredResults
  errors : Option (List ErrorRecord) := none
deriving DecidableEq, Repr

/-- The shapes `run(context)` sniffs: falsy (fall back to the global
document), a document, an element (has `ownerDocument`), a window (has
`document`), or anything else. -/
inductive RunContext (E : Type) where
  | nullish
  | doc (root : E)
  | element (e : E)
  | window (root : E)
  | invalid

/-- The context-resolution prefix of `run()`: the only failures that
propagate out of `run` as rejections. -/
def resolveContext (globalDocRoot : Option E) :
    RunContext E → Except String E
  | .nullish =>
      match globalDocRoot with
      | some root => .ok root
      | none => .error "No document context available"
  | .doc root => .ok root
  | .element e => .ok e
  | .window root => .ok root
  | .invalid => .error "Invalid context provided"

/-- The fate of one rule's task relative to the global deadline: it settled
(with or without hitting its own per-rule deadline), or was still in flight
when the global race rejected. -/
inductive RuleFate where
  | completed (ruleTimedOut : Bool)
  | inFlight
deriving DecidableEq, Repr

/-- Whether the task was abandoned by the global race. -/
def RuleFate.isInFlight : RuleFate → Bool
  | .inFlight => true
  | _ => false

/-- The committed effect of one resolved id: an unregistered id is skipped
(`if (rule)` in `run`), a settled task contributes its `_runRule` effect, an
abandoned task contributes nothing. -/
def runStep (dom : Dom E) (opts : EngineOptions) (reg : Registry E)
    (context : E) (fate : String → RuleFate) (st : EngineState)
    (id : String) : EngineState :=
  match lookupRule reg id with
  | none => st
  | some rule =>
      match fate id with
      | .completed t => runRule dom opts rule context t st
      | .inFlight => st

/-- The committed effects of all launched rule tasks. -/
def runRules (dom : Dom E) (opts : EngineOptions) (reg : Registry E)
    (context : E) (fate : String → RuleFate) (ids : List String)
    (st : EngineState) : EngineState :=
  ids.foldl (runStep dom opts reg context fate) st

/-- The record pushed when the global race rejects. -/
def globalTimeoutRecord : ErrorRecord :=
  ⟨"timeout", none, none, "Some accessibility tests timed out"⟩

/-- Whether the global race rejects: some launched task (resolved id with a
registered rule) was still in flight at the global deadline. -/
def launchedTimedOut (reg : Registry E) (fate : String → RuleFate)
    (ids : List String) : Bool :=
  ids.any (fun id => (lookupRule reg id).isSome && (fate id).isInFlight)

/-- The engine state when `run` reaches report assembly: the settled tasks'
committed effects, plus the `timeout` record when the global race
rejected. -/
def runState (dom : Dom E) (opts : EngineOptions) (reg : Registry E)
    (root : E) (fate : String → RuleFate) : EngineState :=
  if launchedTimedOut reg fate (getRulesToRun reg opts.runOnly) then
    { runRules dom opts reg root fate (getRulesToRun reg opts.runOnly) {} with
      errors :=
        (runRules dom opts reg root fate
          (getRulesToRun reg opts.runOnly) {}).errors ++
        [globalTimeoutRecord] }
  else runRules dom opts reg root fate (getRulesToRun reg opts.runOnly) {}

/-- Report assembly: buckets through `_filterResults`, the error log
attached only when non-empty and `silent` is off. -/
def assembleReport (opts : EngineOptions) (st : EngineState) : Report :=
  { results := filterResults opts.resultTypes st.results
    errors :=
      if st.errors.length > 0 && !opts.silent then some st.errors else none }

/-- `run(context)` without the callback plumbing: resolve the context
(the only rejection), commit the settled tasks' effects, log `timeout` if
any launched task was still in flight at the global deadline, and assemble
the report. -/
def runEngine (dom : Dom E) (opts : EngineOptions) (reg : Registry E)
    (globalDocRoot : Option E) (ctx : RunContext E)
    (fate : String → RuleFate) : Except String Report :=
  match resolveContext globalDocRoot ctx with
  | .error e => .error e
  | .ok root => .ok (assembleReport opts (runState dom opts reg root fate))

/-- One observed callback invocation. -/
inductive CallbackCall where
  | success (report : Report)
  | failure (err : String)
deriving DecidableEq, Repr

/-- `run(context, callback)`: the try-block's tail calls
`callback(null, report)` and returns the report; the catch block calls
`callback(error)` and rethrows.  Returns the callback invocations alongside
the promise outcome. -/
def runWithCallback (dom : Dom E) (opts : EngineOptions) (reg : Registry E)
    (globalDocRoot : Option E) (ctx : RunContext E)
    (fate : String → RuleFate) (hasCallback : Bool) :
    List CallbackCall × Except String Report :=
  match runEngine dom opts reg globalDocRoot ctx fate with
  | .ok report =>
      ((if hasCallback then [.success report] else []), .ok report)
  | .error e =>
      ((if hasCallback then [.failure e] else []), .error e)

/-- Bucket-wise membership containment between two `Results` values. -/
def bucketSub (a b : Results) : Prop :=
  (∀ x ∈ a.violations, x ∈ b.violations) ∧
  (∀ x ∈ a.passes, x ∈ b.passes) ∧
  (∀ x ∈ a.incomplete, x ∈ b.incomplete) ∧
  (∀ x ∈ a.inapplicable, x ∈ b.inapplicable)

/-! Concrete fixtures used by counterexamples and witnesses. -/

/-- A rule with only the mandatory fields (id and predicate). -/
def unitRule (id : String) : Rule Unit :=
  { id := id, evaluate := fun _ _ => EvalResult.ok none }

/-- A registry with a single registered rule and no rulesets. -/
def singleRuleReg : Registry Unit := { rules := [unitRule "only-rule"] }

/-- A document in which no selector matches anything. -/
def emptyDom : Dom Unit :=
  { docQuerySelector := fun _ => none
    ctxQuerySelectorAll := fun _ _ => SelectorResult.ok []
    outerHTML := fun _ => "<div>"
    selectorPath := fun _ => "div" }

/-- A document with exactly one element matching every selector. -/
def unitDom : Dom Unit :=
  { docQuerySelector := fun _ => none
    ctxQuerySelectorAll := fun _ _ => SelectorResult.ok [()]
    outerHTML := fun _ => "<div>"
    selectorPath := fun _ => "div" }

/-- A document with exactly two elements matching every selector. -/
def twoElemDom : Dom Unit :=
  { docQuerySelector := fun _ => none
    ctxQuerySelectorAll := fun _ _ => SelectorResult.ok [(), ()]
    outerHTML := fun _ => "<div>"
    selectorPath := fun _ => "div" }

/-- A document whose selector queries always throw. -/
def throwingDom : Dom Unit :=
  { docQuerySelector := fun _ => none
    ctxQuerySelectorAll := fun _ _ => SelectorResult.throws "bad selector"
    outerHTML := fun _ => "<div>"
    selectorPath := fun _ => "div" }

/-- A rule whose predicate always passes. -/
def passingRule : Rule Unit :=
  { id := "pass-rule", selector := some "div",
    evaluate := fun _ _ => EvalResult.ok (some { passed := true }) }

/-- A rule whose predicate always fails (a violation). -/
def failingRule : Rule Unit :=
  { id := "fail-rule", selector := some "div",
    evaluate := fun _ _ => EvalResult.ok (some { passed := false }) }

/-- A rule whose predicate always reports an incomplete check. -/
def partialRule : Rule Unit :=
  { id := "partial-rule", selector := some "div",
    evaluate := fun _ _ =>
      EvalResult.ok (some { passed := false, incomplete := true }) }

/-- A rule whose predicate always returns null (element excluded). -/
def nullRule : Rule Unit :=
  { id := "null-rule", selector := some "div",
    evaluate := fun _ _ => EvalResult.ok none }

/-- A rule with a malformed selector (paired with `throwingDom`). -/
def badSelectorRule : Rule Unit :=
  { id := "bad-sel-rule", selector := some "div[",
    evaluate := fun _ _ => EvalResult.ok none }

/-- The options of an engine constructed with no options object. -/
def defaultOpts : EngineOptions := mkOptions {}

/-- Options capping each rule at one element. -/
def k1Opts : EngineOptions := mkOptions { maxElements := some 1 }

/-- Options with explicitly falsy `runOnly` and `resultTypes` (run every
registered rule, report all four buckets). -/
def allRulesOpts : EngineOptions :=
  mkOptions { runOnly := JsVal.nullish, resultTypes := JsVal.nullish }

/-- A registry with one failing and one passing rule. -/
def twoRuleReg : Registry Unit := { rules := [failingRule, passingRule] }

/-- A schedule where only `fail-rule`'s task settles before the global
deadline. -/
def oneSettledFate : String → RuleFate :=
  fun id => if id == "fail-rule" then RuleFate.completed false
            else RuleFate.inFlight

/-- A report used to show which buckets the projection drops. -/
def sampleReport : RuleReport := mkRuleReport (unitRule "sample") []

/-- Four non-empty buckets, to make dropped buckets observable. -/
def sampleResults : Results :=
  { violations := [sampleReport], passes := [sampleReport],
    incomplete := [sampleReport], inapplicable := [sampleReport] }

/-! ### Helper lemmas -/

theorem mem_setAdd {s : List String} {x y : String} :
    y ∈ setAdd s x ↔ y ∈ s ∨ y = x := by
  unfold setAdd
  split
  · rename_i hx
    constructor
    · exact fun h => Or.inl h
    · rintro (h | rfl)
      · exact h
      · exact hx
  · simp [List.mem_append]

theorem mem_foldl_setAdd (l : List String) (acc : List String) (y : String) :
    y ∈ l.foldl setAdd acc ↔ y ∈ acc ∨ y ∈ l := by
  induction l generalizing acc with
  | nil => simp
  | cons x xs ih =>
    simp only [List.foldl_cons, ih, mem_setAdd, List.mem_cons]
    tauto

theorem mem_rulesetFold (reg : Registry E) (l : List String)
    (acc : List String) (y : String) :
    y ∈ l.foldl
        (fun acc name =>
          match lookupRuleset reg name with
          | some ids => ids.foldl setAdd acc
          | none => acc) acc ↔
      y ∈ acc ∨ ∃ name ∈ l, y ∈ (lookupRuleset reg name).getD [] := by
  induction l generalizing acc with
  | nil => simp
  | cons x xs ih =>
    simp only [List.foldl_cons, ih, List.mem_cons]
    cases h : lookupRuleset reg x with
    | none => simp [h]
    | some ids =>
      simp only [h, Option.getD_some, mem_foldl_setAdd]
      constructor
      · rintro (⟨hy | hy⟩ | ⟨name, hn, hy⟩)
        · exact Or.inl hy
        · exact Or.inr ⟨x, Or.inl rfl, by simpa [h] using hy⟩
        · exact Or.inr ⟨name, Or.inr hn, hy⟩
      · rintro (hy | ⟨name, rfl | hn, hy⟩)
        · exact Or.inl (Or.inl hy)
        · exact Or.inl (Or.inr (by simpa [h] using hy))
        · exact Or.inr ⟨name, hn, hy⟩

theorem mem_getRulesToRun_names (reg : Registry E) (l : List String)
    (y : String) :
    y ∈ getRulesToRun reg (JsVal.val (RunOnlyVal.names l)) ↔
      ∃ name ∈ l, y ∈ (lookupRuleset reg name).getD [] := by
  unfold getRulesToRun
  rw [if_pos
    (show runOnlyTruthy (JsVal.val (RunOnlyVal.names l)) = true from rfl)]
  rw [mem_rulesetFold]
  simp [runOnlyArr]

theorem executeRule_of_no_elements (dom : Dom E) (opts : EngineOptions)
    (rule : Rule E) (context : E) (st : EngineState)
    (h : (getElements dom rule.selector context).2.length = 0) :
    executeRule dom opts rule context st =
      { st with
        errors := st.errors ++ (getElements dom rule.selector context).1,
        results :=
          { st.results with
            inapplicable :=
              st.results.inapplicable ++ [mkRuleReport rule []] } } := by
  unfold executeRule
  rw [if_pos h]

theorem executeRule_of_elements (dom : Dom E) (opts : EngineOptions)
    (rule : Rule E) (context : E) (st : EngineState)
    (h : (getElements dom rule.selector context).2.length ≠ 0) :
    executeRule dom opts rule context st =
      { st with
        errors := st.errors ++ (getElements dom rule.selector context).1 ++
          limitErrors rule.id (getElements dom rule.selector context).2.length
            opts.maxElements ++
          (evalElements dom opts rule
            ((getElements dom rule.selector context).2.take
              opts.maxElements)).1,
        results :=
          classifyInto rule (ruleNodes dom opts rule context) st.results } := by
  unfold executeRule
  rw [if_neg h]

theorem classifyInto_of_incomplete (rule : Rule E) (nodes : List NodeResult)
    (res : Results) (h1 : nodes.length > 0)
    (h2 : nodes.any (fun n => n.incomplete) = true) :
    classifyInto rule nodes res =
      { res with incomplete := res.incomplete ++ [mkRuleReport rule nodes] } := by
  unfold classifyInto
  rw [if_pos h1, if_pos h2]

theorem classifyInto_of_passes (rule : Rule E) (nodes : List NodeResult)
    (res : Results) (h1 : nodes.length > 0)
    (h2 : nodes.any (fun n => n.incomplete) = false)
    (h3 : nodes.all (fun n => n.passed) = true) :
    classifyInto rule nodes res =
      { res with passes := res.passes ++ [mkRuleReport rule nodes] } := by
  unfold classifyInto
  rw [if_pos h1, if_neg (by simp [h2]), if_pos h3]

theorem classifyInto_of_violations (rule : Rule E) (nodes : List NodeResult)
    (res : Results) (h1 : nodes.length > 0)
    (h2 : nodes.any (fun n => n.incomplete) = false)
    (h3 : nodes.all (fun n => n.passed) = false) :
    classifyInto rule nodes res =
      { res with
        violations := res.violations ++ [mkRuleReport rule nodes] } := by
  unfold classifyInto
  rw [if_pos h1, if_neg (by simp [h2]), if_neg (by simp [h3])]

theorem classifyInto_of_no_nodes (rule : Rule E) (nodes : List NodeResult)
    (res : Results) (h : nodes = []) : classifyInto rule nodes res = res := by
  subst h
  rfl

theorem ruleNodes_ne_imp_elements_ne (dom : Dom E) (opts : EngineOptions)
    (rule : Rule E) (context : E)
    (hne : ruleNodes dom opts rule context ≠ []) :
    (getElements dom rule.selector context).2.length ≠ 0 := by
  intro h0
  apply hne
  unfold ruleNodes
  rw [List.length_eq_zero] at h0
  rw [h0]
  simp [evalElements]

theorem runEngine_ok_of_resolvable (dom : Dom E) (opts : EngineOptions)
    (reg : Registry E) (g : Option E) (ctx : RunContext E)
    (fate : String → RuleFate) (root : E)
    (h : resolveContext g ctx = Except.ok root) :
    runEngine dom opts reg g ctx fate =
      Except.ok (assembleReport opts (runState dom opts reg root fate)) := by
  unfold runEngine
  rw [h]

/-! ### C1 -/

/-- C1: for every rule whose evaluation produces at least one NodeResult,
classification follows this precedence — any NodeResult with
`incomplete = true` files the rule in the incomplete bucket; otherwise,
every NodeResult with `passed = true` files it in passes; otherwise it is
filed in violations. -/
theorem classification_precedence (dom : Dom E) (opts : EngineOptions)
    (rule : Rule E) (context : E) (st : EngineState)
    (hne : ruleNodes dom opts rule context ≠ []) :
    ((ruleNodes dom opts rule context).any (fun n => n.incomplete) = true →
      (executeRule dom opts rule context st).results =
        { st.results with
          incomplete := st.results.incomplete ++
            [mkRuleReport rule (ruleNodes dom opts rule context)] }) ∧
    ((ruleNodes dom opts rule context).any (fun n => n.incomplete) = false →
     (ruleNodes dom opts rule context).all (fun n => n.passed) = true →
      (executeRule dom opts rule context st).results =
        { st.results with
          passes := st.results.passes ++
            [mkRuleReport rule (ruleNodes dom opts rule context)] }) ∧
    ((ruleNodes dom opts rule context).any (fun n => n.incomplete) = false →
     (ruleNodes dom opts rule context).all (fun n => n.passed) = false →
      (executeRule dom opts rule context st).results =
        { st.results with
          violations := st.results.violations ++
            [mkRuleReport rule (ruleNodes dom opts rule context)] }) := by
  have hel := ruleNodes_ne_imp_elements_ne dom opts rule context hne
  have hlen : (ruleNodes dom opts rule context).length > 0 :=
    List.length_pos.mpr hne
  refine ⟨?_, ?_, ?_⟩
  · intro h2
    rw [executeRule_of_elements dom opts rule context st hel]
    rw [classifyInto_of_incomplete rule _ _ hlen h2]
  · intro h2 h3
    rw [executeRule_of_elements dom opts rule context st hel]
    rw [classifyInto_of_passes rule _ _ hlen h2 h3]
  · intro h2 h3
    rw [executeRule_of_elements dom opts rule context st hel]
    rw [classifyInto_of_violations rule _ _ hlen h2 h3]

/-- Witness for C1: a rule whose single node is incomplete lands in the
incomplete bucket. -/
theorem c1_witness :
    ruleNodes unitDom defaultOpts partialRule () ≠ [] ∧
    (ruleNodes unitDom defaultOpts partialRule ()).any
      (fun n => n.incomplete) = true ∧
    (executeRule unitDom defaultOpts partialRule () {}).results.incomplete =
      [mkRuleReport partialRule (ruleNodes unitDom defaultOpts partialRule ())] := by
  refine ⟨by decide, by decide, ?_⟩
  have h := (classification_precedence unitDom defaultOpts partialRule () {}
    (by decide)).1 (by decide)
  rw [h]
  rfl

/-! ### C2 -/

/-- C2: each evaluated rule lands in the correct set of buckets — a rule
with zero located elements is filed only under inapplicable with an empty
node list; a rule with located elements but zero NodeResults changes no
bucket at all; a rule with at least one NodeResult extends exactly one of
violations / passes / incomplete (and leaves inapplicable untouched). -/
theorem bucket_totality (dom : Dom E) (opts : EngineOptions) (rule : Rule E)
    (context : E) (st : EngineState) :
    ((getElements dom rule.selector context).2 = [] →
       (executeRule dom opts rule context st).results =
         { st.results with
           inapplicable :=
             st.results.inapplicable ++ [mkRuleReport rule []] }) ∧
    ((getElements dom rule.selector context).2 ≠ [] →
      ruleNodes dom opts rule context = [] →
       (executeRule dom opts rule context st).results = st.results) ∧
    (ruleNodes dom opts rule context ≠ [] →
       ((executeRule dom opts rule context st).results =
          { st.results with
            incomplete := st.results.incomplete ++
              [mkRuleReport rule (ruleNodes dom opts rule context)] } ∨
        (executeRule dom opts rule context st).results =
          { st.results with
            passes := st.results.passes ++
              [mkRuleReport rule (ruleNodes dom opts rule context)] } ∨
        (executeRule dom opts rule context st).results =
          { st.results with
            violations := st.results.violations ++
              [mkRuleReport rule (ruleNodes dom opts rule context)] })) := by
  refine ⟨?_, ?_, ?_⟩
  · intro h0
    rw [executeRule_of_no_elements dom opts rule context st (by rw [h0]; rfl)]
  · intro h0 hn
    rw [executeRule_of_elements dom opts rule context st
      (fun hc => h0 (List.length_eq_zero.mp hc))]
    rw [classifyInto_of_no_nodes rule _ _ hn]
  · intro hn
    have hel := ruleNodes_ne_imp_elements_ne dom opts rule context hn
    have hlen : (ruleNodes dom opts rule context).length > 0 :=
      List.length_pos.mpr hn
    rw [executeRule_of_elements dom opts rule context st hel]
    cases h2 : (ruleNodes dom opts rule context).any (fun n => n.incomplete) with
    | true =>
      rw [classifyInto_of_incomplete rule _ _ hlen h2]
      exact Or.inl rfl
    | false =>
      cases h3 : (ruleNodes dom opts rule context).all (fun n => n.passed) with
      | true =>
        rw [classifyInto_of_passes rule _ _ hlen h2 h3]
        exact Or.inr (Or.inl rfl)
      | false =>
        rw [classifyInto_of_violations rule _ _ hlen h2 h3]
        exact Or.inr (Or.inr rfl)

/-- Witness for C2: the three cases at concrete inputs — no matches, matches
with all-null outcomes, and matches with an outcome. -/
theorem c2_witness :
    ((executeRule emptyDom defaultOpts passingRule () {}).results =
      { ({} : EngineState).results with
        inapplicable :=
          ({} : EngineState).results.inapplicable ++
            [mkRuleReport passingRule []] }) ∧
    ((executeRule unitDom defaultOpts nullRule () {}).results =
      ({} : EngineState).results) ∧
    ((executeRule unitDom defaultOpts partialRule () {}).results =
       { ({} : EngineState).results with
         incomplete :=
           ({} : EngineState).results.incomplete ++
             [mkRuleReport partialRule
               (ruleNodes unitDom defaultOpts partialRule ())] } ∨
     (executeRule unitDom defaultOpts partialRule () {}).results =
       { ({} : EngineState).results with
         passes :=
           ({} : EngineState).results.passes ++
             [mkRuleReport partialRule
               (ruleNodes unitDom defaultOpts partialRule ())] } ∨
     (executeRule unitDom defaultOpts partialRule () {}).results =
       { ({} : EngineState).results with
         violations :=
           ({} : EngineState).results.violations ++
             [mkRuleReport partialRule
               (ruleNodes unitDom defaultOpts partialRule ())] }) :=
  ⟨(bucket_totality emptyDom defaultOpts passingRule () {}).1 (by decide),
   (bucket_totality unitDom defaultOpts nullRule () {}).2.1 (by decide)
     (by decide),
   (bucket_totality unitDom defaultOpts partialRule () {}).2.2 (by decide)⟩

/-! ### C8 -/

/-- C8 counterexample: the `selector_error` record produced by a throwing
selector does not carry the rule's id (the claim says it does) — its `rule`
field is `none`; the selector string is what it carries. -/
theorem c8_selector_error_no_rule_id :
    (executeRule throwingDom defaultOpts badSelectorRule () {}).errors =
      [⟨"selector_error", none, some "div[", "bad selector"⟩] ∧
    ¬ ∃ e ∈ (executeRule throwingDom defaultOpts badSelectorRule () {}).errors,
        e.rule = some badSelectorRule.id := by decide

/-- C8 amended: a throwing selector never raises out of `run()`; the failure
is recorded as exactly one `selector_error` ErrorRecord carrying the
selector string and the error message (its rule field is none), the locator
returns an empty element list, and the rule is classified inapplicable with
an empty node list. -/
theorem selector_throw_handled (dom : Dom E) (opts : EngineOptions)
    (rule : Rule E) (context : E) (st : EngineState) (s msg : String)
    (hsel : rule.selector = some s)
    (h1 : s ≠ "") (h2 : s ≠ "html") (h3 : s ≠ "body")
    (hthrow : dom.ctxQuerySelectorAll context
        (if s = "*" then textSelectors else s) = SelectorResult.throws msg) :
    getElements dom rule.selector context =
      ([⟨"selector_error", none, some s, msg⟩], []) ∧
    executeRule dom opts rule context st =
      { st with
        errors := st.errors ++ [⟨"selector_error", none, some s, msg⟩],
        results :=
          { st.results with
            inapplicable :=
              st.results.inapplicable ++ [mkRuleReport rule []] } } ∧
    (∀ (reg : Registry E) (g : Option E) (c : RunContext E)
       (fate : String → RuleFate) (root : E),
       resolveContext g c = Except.ok root →
       ∃ report, runEngine dom opts reg g c fate = Except.ok report) := by
  have hg : getElements dom rule.selector context =
      ([⟨"selector_error", none, some s, msg⟩], []) := by
    simp only [getElements, hsel]
    rw [if_neg h1]
    rw [if_neg (show ¬(s = "html" ∨ s = "body") by
      rintro (h | h)
      · exact h2 h
      · exact h3 h)]
    rw [hthrow]
  refine ⟨hg, ?_, ?_⟩
  · rw [executeRule_of_no_elements dom opts rule context st (by rw [hg]; rfl)]
    rw [hg]
  · intro reg g c fate root hres
    exact ⟨_, runEngine_ok_of_resolvable dom opts reg g c fate root hres⟩

/-- Witness for C8 at a concrete throwing selector. -/
theorem c8_witness :
    getElements throwingDom badSelectorRule.selector () =
      ([⟨"selector_error", none, some "div[", "bad selector"⟩], []) ∧
    executeRule throwingDom defaultOpts badSelectorRule () {} =
      { ({} : EngineState) with
        errors := ({} : EngineState).errors ++
          [⟨"selector_error", none, some "div[", "bad selector"⟩],
        results :=
          { ({} : EngineState).results with
            inapplicable :=
              ({} : EngineState).results.inapplicable ++
                [mkRuleReport badSelectorRule []] } } := by
  have h := selector_throw_handled throwingDom defaultOpts badSelectorRule ()
    {} "div[" "bad selector" rfl (by decide) (by decide) (by decide) rfl
  exact ⟨h.1, h.2.1⟩

/-! ### C3 -/

/-- C3 counterexample: an engine constructed without a `runOnly` option does
NOT evaluate every registered rule.  Against a registry holding one rule and
no rulesets, rule resolution under the constructed options returns no ids at
all, while the registry holds the id `only-rule`. -/
theorem c3_absent_runOnly_not_all_rules :
    getRulesToRun singleRuleReg (mkOptions {}).runOnly = [] ∧
    allRuleIds singleRuleReg = ["only-rule"] ∧
    ([] : List String) ≠ ["only-rule"] := by decide

/-- C3 amended: when the engine is constructed without a `runOnly` option,
`options.runOnly` defaults to the ruleset names `['wcag22a', 'wcag22aa']`,
and rule resolution returns exactly the ids reachable from the registered
rulesets of those two names (not all rules in the registry). -/
theorem default_runOnly_resolves_rulesets (E : Type) (reg : Registry E)
    (y : String) :
    y ∈ getRulesToRun reg (mkOptions {}).runOnly ↔
      y ∈ (lookupRuleset reg "wcag22a").getD [] ∨
      y ∈ (lookupRuleset reg "wcag22aa").getD [] := by
  have h : (mkOptions {}).runOnly =
      JsVal.val (RunOnlyVal.names ["wcag22a", "wcag22aa"]) := rfl
  rw [h, mem_getRulesToRun_names]
  constructor
  · rintro ⟨name, hname, hy⟩
    simp only [List.mem_cons, List.not_mem_nil, or_false] at hname
    rcases hname with rfl | rfl
    · exact Or.inl hy
    · exact Or.inr hy
  · rintro (hy | hy)
    · exact ⟨"wcag22a", by simp, hy⟩
    · exact ⟨"wcag22aa", by simp, hy⟩

/-! ### C4 -/

/-- C4 counterexample: with `resultTypes` absent the constructor defaults it
to `['violations']`, so the report of a run whose internal buckets are all
non-empty carries only the violations bucket — passes, incomplete and
inapplicable are absent, refuting "contains all four buckets". -/
theorem c4_absent_resultTypes_only_violations :
    (mkOptions {}).resultTypes = JsVal.val ["violations"] ∧
    (filterResults (mkOptions {}).resultTypes sampleResults).violations =
      some [sampleReport] ∧
    (filterResults (mkOptions {}).resultTypes sampleResults).passes = none ∧
    (filterResults (mkOptions {}).resultTypes sampleResults).incomplete
      = none ∧
    (filterResults (mkOptions {}).resultTypes sampleResults).inapplicable
      = none := by decide

/-- C4 amended: when `resultTypes` is absent it defaults to
`['violations']` and the final report contains only the violations bucket;
an explicitly falsy `resultTypes` (e.g. `resultTypes: null`) yields all
four buckets. -/
theorem resultTypes_default_projection (res : Results) :
    filterResults (mkOptions {}).resultTypes res =
      { violations := some res.violations, passes := none,
        incomplete := none, inapplicable := none } ∧
    filterResults JsVal.nullish res = allResults res :=
  ⟨rfl, rfl⟩

/-! ### C5 -/

/-- C5 counterexample: when a rule's evaluation exceeds the per-rule
deadline, the record appended to the error log has kind `rule_error`, not
`timeout` as the claim states (the timeout shows only in the message). -/
theorem c5_timeout_record_kind :
    ((runRule unitDom defaultOpts (unitRule "slow-rule") () true
        {}).errors.map (fun e => e.type)) = ["rule_error"] ∧
    ¬ ∃ e ∈ (runRule unitDom defaultOpts (unitRule "slow-rule") () true
        {}).errors, e.type = "timeout" := by decide

/-- C5 amended: each rule's evaluation is raced against a fixed 5000 ms
deadline (`ruleTimeoutMs`; there is no per-rule timeout option); for a rule
whose evaluation exceeds it, an ErrorRecord of kind `rule_error` with
message `Rule <id> timed out`, tagged with the rule's id, is appended to the
error log, and the rule is filed in the incomplete bucket with zero
nodes. -/
theorem rule_timeout_filed_incomplete (dom : Dom E) (opts : EngineOptions)
    (rule : Rule E) (context : E) (st : EngineState) :
    runRule dom opts rule context true st =
      { st with
        errors := st.errors ++ [ruleTimeoutRecord rule.id],
        results :=
          { st.results with
            incomplete := st.results.incomplete ++ [mkRuleReport rule []] } } ∧
    (mkRuleReport rule []).nodes = [] ∧
    (ruleTimeoutRecord rule.id).rule = some rule.id ∧
    (ruleTimeoutRecord rule.id).type = "rule_error" ∧
    ruleTimeoutMs = 5000 :=
  ⟨rfl, rfl, rfl, rfl, rfl⟩

/-! ### C9 -/

/-- C9: an explicitly falsy `runOnly` (e.g. `runOnly: null`) is the only way
to make the engine evaluate every registered rule.  The constructor defaults
an absent `runOnly` to `['wcag22a','wcag22aa']`, the options spread lets an
explicitly falsy value survive, and rule resolution returns all registered
rule ids for every registry exactly when `runOnly` is falsy. -/
theorem falsy_runOnly_runs_all_rules :
    (mkOptions {}).runOnly =
      JsVal.val (RunOnlyVal.names ["wcag22a", "wcag22aa"]) ∧
    (mkOptions { runOnly := JsVal.nullish }).runOnly = JsVal.nullish ∧
    ∀ ro : JsVal RunOnlyVal,
      (∀ (E : Type) (reg : Registry E), getRulesToRun reg ro = allRuleIds reg)
        ↔ runOnlyTruthy ro = false := by
  refine ⟨rfl, rfl, fun ro => ⟨?_, ?_⟩⟩
  · intro hall
    by_contra hne
    have htr : runOnlyTruthy ro = true := by
      cases h : runOnlyTruthy ro
      · exact absurd h hne
      · rfl
    have hfold : ∀ (l : List String) (acc : List String),
        l.foldl
          (fun acc name =>
            match lookupRuleset singleRuleReg name with
            | some ids => ids.foldl setAdd acc
            | none => acc) acc = acc := by
      intro l
      induction l with
      | nil => intro acc; rfl
      | cons x xs ih =>
        intro acc
        simp only [List.foldl_cons]
        exact ih acc
    have h2 : getRulesToRun singleRuleReg ro = [] := by
      unfold getRulesToRun
      rw [htr, if_pos rfl]
      exact hfold _ _
    have h1 := hall Unit singleRuleReg
    rw [h2] at h1
    have h3 : allRuleIds singleRuleReg = ["only-rule"] := rfl
    rw [h3] at h1
    cases h1
  · intro hf E reg
    simp [getRulesToRun, hf]

/-- Witness for C9 at a concrete falsy value and registry. -/
theorem c9_witness :
    runOnlyTruthy JsVal.nullish = false ∧
    getRulesToRun singleRuleReg JsVal.nullish = allRuleIds singleRuleReg :=
  ⟨by decide,
    (falsy_runOnly_runs_all_rules.2.2 JsVal.nullish).mpr (by decide)
      Unit singleRuleReg⟩

/-! ### C10 -/

/-- C10: `run(context, callback)` has a dual result surface.  On every
successful run the callback is invoked once as `callback(null, report)` with
the same report value the promise resolves to; on every fatal failure
(unresolvable context) the callback is invoked once as `callback(error)`
and the promise rejects with that same error. -/
theorem run_callback_matches_promise (dom : Dom E) (opts : EngineOptions)
    (reg : Registry E) (g : Option E) (ctx : RunContext E)
    (fate : String → RuleFate) :
    (∀ report, runEngine dom opts reg g ctx fate = Except.ok report →
       runWithCallback dom opts reg g ctx fate true =
         ([CallbackCall.success report], Except.ok report)) ∧
    (∀ e, runEngine dom opts reg g ctx fate = Except.error e →
       runWithCallback dom opts reg g ctx fate true =
         ([CallbackCall.failure e], Except.error e)) := by
  constructor
  · intro report h
    simp [runWithCallback, h]
  · intro e h
    simp [runWithCallback, h]

/-- Witness for C10: a successful run and a fatally failing run, concretely. -/
theorem c10_witness :
    (∃ report,
      runWithCallback unitDom defaultOpts singleRuleReg none
        (RunContext.doc ()) oneSettledFate true =
        ([CallbackCall.success report], Except.ok report)) ∧
    runWithCallback unitDom defaultOpts singleRuleReg none
      RunContext.invalid oneSettledFate true =
      ([CallbackCall.failure "Invalid context provided"],
       Except.error "Invalid context provided") :=
  ⟨⟨_, (run_callback_matches_promise unitDom defaultOpts singleRuleReg none
      (RunContext.doc ()) oneSettledFate).1 _ rfl⟩,
   (run_callback_matches_promise unitDom defaultOpts singleRuleReg none
      RunContext.invalid oneSettledFate).2 "Invalid context provided" rfl⟩

/-! ### C7 -/

theorem getElements_errors_selector (dom : Dom E) (selector : Option String)
    (context : E) :
    ∀ e ∈ (getElements dom selector context).1, e.type = "selector_error" := by
  intro e he
  cases selector with
  | none => cases he
  | some s =>
    simp only [getElements] at he
    split at he
    · cases he
    · split at he
      · split at he
        · cases he
        · cases he
      · split at he
        · cases he
        · rw [List.mem_singleton] at he
          subst he
          rfl

theorem evalElements_fold_errors (dom : Dom E) (opts : EngineOptions)
    (rule : Rule E) (els : List E) (acc : List ErrorRecord × List NodeResult)
    (hacc : ∀ e ∈ acc.1, e.type = "element_error") :
    ∀ e ∈ (els.foldl (evalElement dom opts rule) acc).1,
      e.type = "element_error" := by
  induction els generalizing acc with
  | nil => exact hacc
  | cons x xs ih =>
    simp only [List.foldl_cons]
    apply ih
    unfold evalElement
    split
    · exact hacc
    · exact hacc
    · intro e he
      rcases List.mem_append.mp he with h | h
      · exact hacc e h
      · rw [List.mem_singleton] at h
        subst h
        rfl

theorem evalElement_nodes_le (dom : Dom E) (opts : EngineOptions)
    (rule : Rule E) (acc : List ErrorRecord × List NodeResult) (x : E) :
    (evalElement dom opts rule acc x).2.length ≤ acc.2.length + 1 := by
  unfold evalElement
  split
  · exact Nat.le_succ _
  · simp
  · exact Nat.le_succ _

theorem evalElements_fold_nodes_le (dom : Dom E) (opts : EngineOptions)
    (rule : Rule E) (els : List E)
    (acc : List ErrorRecord × List NodeResult) :
    (els.foldl (evalElement dom opts rule) acc).2.length ≤
      acc.2.length + els.length := by
  induction els generalizing acc with
  | nil => simp
  | cons x xs ih =>
    simp only [List.foldl_cons, List.length_cons]
    calc (xs.foldl (evalElement dom opts rule)
            (evalElement dom opts rule acc x)).2.length ≤
          (evalElement dom opts rule acc x).2.length + xs.length := ih _
      _ ≤ (acc.2.length + 1) + xs.length :=
          Nat.add_le_add_right (evalElement_nodes_le dom opts rule acc x) _
      _ = acc.2.length + (xs.length + 1) := by omega

theorem evalElements_fold_nodes_exact (dom : Dom E) (opts : EngineOptions)
    (rule : Rule E) (els : List E)
    (acc : List ErrorRecord × List NodeResult)
    (hall : ∀ e ∈ els, ∃ o, rule.evaluate e opts = EvalResult.ok (some o)) :
    (els.foldl (evalElement dom opts rule) acc).2.length =
      acc.2.length + els.length := by
  induction els generalizing acc with
  | nil => simp
  | cons x xs ih =>
    simp only [List.foldl_cons, List.length_cons]
    obtain ⟨o, ho⟩ := hall x (List.mem_cons_self x xs)
    have hstep : (evalElement dom opts rule acc x).2.length =
        acc.2.length + 1 := by
      unfold evalElement
      rw [ho]
      simp
    rw [ih _ (fun e he => hall e (List.mem_cons_of_mem x he)), hstep]
    omega

/-- C7 counterexample: with the per-rule cap set to 1 and a rule matching 2
elements whose predicate returns null for every element, the rule produces 0
NodeResults (not `nodes.length == k`) and has no report entry in any bucket
at all — yet truncation did happen. -/
theorem c7_null_outcomes_counterexample :
    (getElements twoElemDom nullRule.selector ()).2.length = 2 ∧
    k1Opts.maxElements = 1 ∧
    (ruleNodes twoElemDom k1Opts nullRule ()).length = 0 ∧
    (executeRule twoElemDom k1Opts nullRule () {}).results = {} := by decide

/-- C7 amended: for a run with `maxElements = k`, a rule whose selector
matches `m > k` elements has only the first `k` elements evaluated and
exactly one `element_limit` ErrorRecord appended for it; its node list has
at most `k` entries, with `nodes.length == k` exactly when every checked
element yields a non-null outcome without throwing. -/
theorem element_limit_truncation (dom : Dom E) (opts : EngineOptions)
    (rule : Rule E) (context : E) (st : EngineState)
    (hm : (getElements dom rule.selector context).2.length >
      opts.maxElements) :
    ruleNodes dom opts rule context =
      (evalElements dom opts rule
        ((getElements dom rule.selector context).2.take
          opts.maxElements)).2 ∧
    (ruleNodes dom opts rule context).length ≤ opts.maxElements ∧
    (executeRule dom opts rule context st).errors.countP
        (fun e => e.type == "element_limit") =
      st.errors.countP (fun e => e.type == "element_limit") + 1 ∧
    ((∀ e ∈ (getElements dom rule.selector context).2.take opts.maxElements,
        ∃ o, rule.evaluate e opts = EvalResult.ok (some o)) →
      (ruleNodes dom opts rule context).length = opts.maxElements) := by
  have hel : (getElements dom rule.selector context).2.length ≠ 0 := by
    omega
  have htake : ((getElements dom rule.selector context).2.take
      opts.maxElements).length = opts.maxElements := by
    rw [List.length_take]
    omega
  refine ⟨rfl, ?_, ?_, ?_⟩
  · have h1 := evalElements_fold_nodes_le dom opts rule
      ((getElements dom rule.selector context).2.take opts.maxElements)
      ([], [])
    unfold ruleNodes evalElements
    rw [htake] at h1
    simpa using h1
  · rw [executeRule_of_elements dom opts rule context st hel]
    simp only [List.countP_append]
    have hsel : (getElements dom rule.selector context).1.countP
        (fun e => e.type == "element_limit") = 0 := by
      rw [List.countP_eq_zero]
      intro a ha
      rw [getElements_errors_selector dom rule.selector context a ha]
      decide
    have helem : (evalElements dom opts rule
        ((getElements dom rule.selector context).2.take
          opts.maxElements)).1.countP (fun e => e.type == "element_limit")
        = 0 := by
      rw [List.countP_eq_zero]
      intro a ha
      rw [evalElements_fold_errors dom opts rule _ ([], [])
        (fun e he => nomatch he) a ha]
      decide
    have hlim : (limitErrors rule.id
        (getElements dom rule.selector context).2.length
        opts.maxElements).countP (fun e => e.type == "element_limit") = 1 := by
      unfold limitErrors
      rw [if_pos hm]
      rfl
    rw [hsel, helem, hlim]
  · intro hall
    have h2 := evalElements_fold_nodes_exact dom opts rule
      ((getElements dom rule.selector context).2.take opts.maxElements)
      ([], []) hall
    unfold ruleNodes evalElements
    rw [htake] at h2
    simpa using h2

/-- Witness for C7: two matched elements, cap 1, an always-passing
predicate — one node, one `element_limit` record. -/
theorem c7_witness :
    (getElements twoElemDom passingRule.selector ()).2.length >
      k1Opts.maxElements ∧
    (ruleNodes twoElemDom k1Opts passingRule ()).length =
      k1Opts.maxElements ∧
    (executeRule twoElemDom k1Opts passingRule () {}).errors.countP
      (fun e => e.type == "element_limit") = 1 := by
  have h := element_limit_truncation twoElemDom k1Opts passingRule () {}
    (by decide)
  refine ⟨by decide, ?_, ?_⟩
  · exact h.2.2.2 (fun e he => ⟨{ passed := true }, rfl⟩)
  · exact h.2.2.1

/-! ### C6 -/

theorem bucketSub_refl (res : Results) : bucketSub res res :=
  ⟨fun _ hx => hx, fun _ hx => hx, fun _ hx => hx, fun _ hx => hx⟩

theorem bucketSub_trans {a b c : Results} (h1 : bucketSub a b)
    (h2 : bucketSub b c) : bucketSub a c :=
  ⟨fun x hx => h2.1 x (h1.1 x hx),
   fun x hx => h2.2.1 x (h1.2.1 x hx),
   fun x hx => h2.2.2.1 x (h1.2.2.1 x hx),
   fun x hx => h2.2.2.2 x (h1.2.2.2 x hx)⟩

theorem classifyInto_mono (rule : Rule E) (nodes : List NodeResult)
    (res : Results) : bucketSub res (classifyInto rule nodes res) := by
  unfold bucketSub classifyInto
  split
  · split
    · refine ⟨?_, ?_, ?_, ?_⟩ <;> intro x hx <;> simp_all
    · split
      · refine ⟨?_, ?_, ?_, ?_⟩ <;> intro x hx <;> simp_all
      · refine ⟨?_, ?_, ?_, ?_⟩ <;> intro x hx <;> simp_all
  · exact bucketSub_refl res

theorem classifyInto_commits (rule : Rule E) (nodes : List NodeResult)
    (res : Results) :
    bucketSub (classifyInto rule nodes {}) (classifyInto rule nodes res) := by
  unfold bucketSub classifyInto
  split
  · split
    · refine ⟨?_, ?_, ?_, ?_⟩ <;> intro x hx <;> simp_all
    · split
      · refine ⟨?_, ?_, ?_, ?_⟩ <;> intro x hx <;> simp_all
      · refine ⟨?_, ?_, ?_, ?_⟩ <;> intro x hx <;> simp_all
  · refine ⟨?_, ?_, ?_, ?_⟩ <;> intro x hx <;> simp_all

theorem executeRule_mono (dom : Dom E) (opts : EngineOptions) (rule : Rule E)
    (context : E) (st : EngineState) :
    bucketSub st.results (executeRule dom opts rule context st).results := by
  by_cases h : (getElements dom rule.selector context).2.length = 0
  · rw [executeRule_of_no_elements dom opts rule context st h]
    unfold bucketSub
    refine ⟨?_, ?_, ?_, ?_⟩ <;> intro x hx <;> simp_all
  · rw [executeRule_of_elements dom opts rule context st h]
    exact classifyInto_mono rule _ st.results

theorem executeRule_commits (dom : Dom E) (opts : EngineOptions)
    (rule : Rule E) (context : E) (st : EngineState) :
    bucketSub (executeRule dom opts rule context {}).results
      (executeRule dom opts rule context st).results := by
  by_cases h : (getElements dom rule.selector context).2.length = 0
  · rw [executeRule_of_no_elements dom opts rule context st h,
        executeRule_of_no_elements dom opts rule context {} h]
    unfold bucketSub
    refine ⟨?_, ?_, ?_, ?_⟩ <;> intro x hx <;> simp_all
  · rw [executeRule_of_elements dom opts rule context st h,
        executeRule_of_elements dom opts rule context {} h]
    exact classifyInto_commits rule _ st.results

theorem runRule_mono (dom : Dom E) (opts : EngineOptions) (rule : Rule E)
    (context : E) (t : Bool) (st : EngineState) :
    bucketSub st.results (runRule dom opts rule context t st).results := by
  unfold runRule
  split
  · unfold bucketSub
    refine ⟨?_, ?_, ?_, ?_⟩ <;> intro x hx <;> simp_all
  · exact executeRule_mono dom opts rule context st

theorem runRule_commits (dom : Dom E) (opts : EngineOptions) (rule : Rule E)
    (context : E) (t : Bool) (st : EngineState) :
    bucketSub (runRule dom opts rule context t {}).results
      (runRule dom opts rule context t st).results := by
  unfold runRule
  split
  · unfold bucketSub
    refine ⟨?_, ?_, ?_, ?_⟩ <;> intro x hx <;> simp_all
  · exact executeRule_commits dom opts rule context st

theorem runStep_mono (dom : Dom E) (opts : EngineOptions) (reg : Registry E)
    (context : E) (fate : String → RuleFate) (st : EngineState)
    (id : String) :
    bucketSub st.results
      (runStep dom opts reg context fate st id).results := by
  unfold runStep
  split
  · exact bucketSub_refl _
  · split
    · exact runRule_mono dom opts _ context _ st
    · exact bucketSub_refl _

theorem runRules_mono (dom : Dom E) (opts : EngineOptions) (reg : Registry E)
    (context : E) (fate : String → RuleFate) (ids : List String)
    (st : EngineState) :
    bucketSub st.results
      (runRules dom opts reg context fate ids st).results := by
  induction ids generalizing st with
  | nil => exact bucketSub_refl _
  | cons x xs ih =>
    exact bucketSub_trans (runStep_mono dom opts reg context fate st x)
      (ih (runStep dom opts reg context fate st x))

theorem runRules_commits (dom : Dom E) (opts : EngineOptions)
    (reg : Registry E) (context : E) (fate : String → RuleFate)
    (ids : List String) (st : EngineState) (id : String) (rule : Rule E)
    (t : Bool) (hmem : id ∈ ids) (hlk : lookupRule reg id = some rule)
    (hf : fate id = RuleFate.completed t) :
    bucketSub (runRule dom opts rule context t {}).results
      (runRules dom opts reg context fate ids st).results := by
  revert hmem
  induction ids generalizing st with
  | nil =>
    intro hmem
    cases hmem
  | cons x xs ih =>
    intro hmem
    rcases List.mem_cons.mp hmem with rfl | hmem'
    · have hstep : runStep dom opts reg context fate st id =
          runRule dom opts rule context t st := by
        unfold runStep
        rw [hlk, hf]
      have h1 : bucketSub (runRule dom opts rule context t {}).results
          (runStep dom opts reg context fate st id).results := by
        rw [hstep]
        exact runRule_commits dom opts rule context t st
      exact bucketSub_trans h1
        (runRules_mono dom opts reg context fate xs _)
    · exact ih (runStep dom opts reg context fate st x) hmem'

/-- C6: when the global deadline expires before all rule tasks settle,
`run()` still resolves rather than rejecting; the returned report is
assembled from the committed state with a `timeout` ErrorRecord appended to
the (attached) error log, and the committed buckets contain the bucket entry
of every rule whose task completed before the deadline. -/
theorem global_timeout_partial_report (dom : Dom E) (opts : EngineOptions)
    (reg : Registry E) (g : Option E) (ctx : RunContext E)
    (fate : String → RuleFate) (root : E)
    (hctx : resolveContext g ctx = Except.ok root)
    (hsilent : opts.silent = false)
    (idF : String) (ruleF : Rule E)
    (hidF : idF ∈ getRulesToRun reg opts.runOnly)
    (hlkF : lookupRule reg idF = some ruleF)
    (hfF : fate idF = RuleFate.inFlight) :
    runEngine dom opts reg g ctx fate =
      Except.ok
        { results := filterResults opts.resultTypes
            (runRules dom opts reg root fate
              (getRulesToRun reg opts.runOnly) {}).results,
          errors := some
            ((runRules dom opts reg root fate
              (getRulesToRun reg opts.runOnly) {}).errors ++
             [globalTimeoutRecord]) } ∧
    ∀ id rule t, id ∈ getRulesToRun reg opts.runOnly →
      lookupRule reg id = some rule → fate id = RuleFate.completed t →
      bucketSub (runRule dom opts rule root t {}).results
        (runRules dom opts reg root fate
          (getRulesToRun reg opts.runOnly) {}).results := by
  constructor
  · rw [runEngine_ok_of_resolvable dom opts reg g ctx fate root hctx]
    have hto : launchedTimedOut reg fate (getRulesToRun reg opts.runOnly)
        = true := by
      unfold launchedTimedOut
      rw [List.any_eq_true]
      refine ⟨idF, hidF, ?_⟩
      rw [hlkF, hfF]
      rfl
    unfold runState
    rw [if_pos hto]
    unfold assembleReport
    have hcond : ((runRules dom opts reg root fate
        (getRulesToRun reg opts.runOnly) {}).errors ++
        [globalTimeoutRecord]).length > 0 := by
      simp
    simp only [hsilent]
    rw [if_pos (by simp [hcond])]
  · intro id rule t hmem hlk hf
    exact runRules_commits dom opts reg root fate _ {} id rule t hmem hlk hf

/-- Witness for C6: two registered rules, one settling as a violation and
one still in flight at the global deadline, at concrete inputs. -/
theorem c6_witness :
    resolveContext (none : Option Unit) (RunContext.doc ()) =
      Except.ok () ∧
    allRulesOpts.silent = false ∧
    runEngine unitDom allRulesOpts twoRuleReg none (RunContext.doc ())
      oneSettledFate =
      Except.ok
        { results := filterResults allRulesOpts.resultTypes
            (runRules unitDom allRulesOpts twoRuleReg () oneSettledFate
              (getRulesToRun twoRuleReg allRulesOpts.runOnly) {}).results,
          errors := some
            ((runRules unitDom allRulesOpts twoRuleReg () oneSettledFate
              (getRulesToRun twoRuleReg allRulesOpts.runOnly) {}).errors ++
             [globalTimeoutRecord]) } ∧
    bucketSub (runRule unitDom allRulesOpts failingRule () false {}).results
      (runRules unitDom allRulesOpts twoRuleReg () oneSettledFate
        (getRulesToRun twoRuleReg allRulesOpts.runOnly) {}).results := by
  have h := global_timeout_partial_report unitDom allRulesOpts twoRuleReg
    none (RunContext.doc ()) oneSettledFate () rfl rfl "pass-rule"
    passingRule (by decide) rfl rfl
  exact ⟨rfl, rfl, h.1, h.2 "fail-rule" failingRule false (by decide) rfl rfl⟩

end AccEngine
